import Mathlib

/-!
Shallow embedding of the resume-parsing app (`final project/main_pro.py` and
`final/bootstrap.py`): the CSV-backed profile store (tab 1 save flow and the
duplicate-overwrite dialog), the skills derivation from the extracted profile,
the tolerant skills-cell parser and skill filter of tab 2, and the
extension dispatch of `load_resume_text`.

Strings are manipulated at the character-list level so that every definition
is executable and kernel-reducible.
-/

set_option maxRecDepth 4000

namespace FocusApp

/-- The single-quote character, written via its code point. -/
def squote : Char := Char.ofNat 39

/-- The double-quote character, written via its code point. -/
def dquote : Char := Char.ofNat 34

/-- Python `str.split(sep)` for a one-character separator, on character lists.
`"".split(",") = [""]`, matching Python. -/
def splitOnChar (sep : Char) : List Char → List (List Char)
  | [] => [[]]
  | c :: rest =>
    if c = sep then [] :: splitOnChar sep rest
    else
      match splitOnChar sep rest with
      | [] => [[c]]
      | p :: ps => (c :: p) :: ps

/-- Python `str.isspace` members relevant to `str.strip()`:
space, tab, newline, carriage return, vertical tab, form feed. -/
def pyIsSpace (c : Char) : Bool :=
  c == ' ' || c == '\t' || c == '\n' || c == '\r' || c == Char.ofNat 11 || c == Char.ofNat 12

/-- Python `str.strip()` (no argument): drop characters satisfying `pyIsSpace`
from both ends. -/
def pyTrimChars (s : List Char) : List Char :=
  ((s.dropWhile pyIsSpace).reverse.dropWhile pyIsSpace).reverse

/-- Membership in the `strip("[]")` character set. -/
def isBracket (c : Char) : Bool := c == '[' || c == ']'

/-- Python `str.strip("[]")`: drop leading and trailing square brackets. -/
def pyStripBracketsChars (s : List Char) : List Char :=
  ((s.dropWhile isBracket).reverse.dropWhile isBracket).reverse

/-- String wrapper for `pyStripBracketsChars`. -/
def pyStripBrackets (s : String) : String := ⟨pyStripBracketsChars s.data⟩

/-- String wrapper for `pyTrimChars`. -/
def pyTrim (s : String) : String := ⟨pyTrimChars s.data⟩

/-- The comma-split used by both fallback branches of `safe_eval_list`
(main_pro.py lines 333 and 337): split on commas, strip each piece, and keep
the non-empty pieces — `[v.strip() for v in s.split(",") if v.strip()]`. -/
def commaSplit (s : String) : List String :=
  (((splitOnChar ',' s.data).map (fun p => (⟨pyTrimChars p⟩ : String))).filter
    (fun v => v != ""))

/-- A value of the `skills` column as `safe_eval_list` receives it from the
dataframe: `pylist` models a cell that already holds a Python list, `na` a
missing value (`pd.isna`), `text` a string cell, and `nonStr` any other
scalar (e.g. a float), carried as its `str(x)` form — `eval` on a non-string
raises at once, so such a cell takes the fallback branch. -/
inductive Cell
  | pylist (l : List String)
  | na
  | text (s : String)
  | nonStr (s : String)
deriving DecidableEq

/-- Outcome of Python `eval` on the textual form of a cell: a list value, a
successfully evaluated non-list value, or an exception. -/
inductive EvalOut
  | evList (l : List String)
  | evNonList
  | evRaise
deriving DecidableEq

/-- `safe_eval_list` (main_pro.py lines 324–339), parameterized by a model
`ev` of Python `eval` on strings: an existing list is returned as-is; a
missing value gives `[]`; for a string, `eval` yielding a list returns that
list, `eval` yielding a non-list comma-splits the raw string, and a raising
`eval` comma-splits the bracket-stripped string (the final `except` that
returns `[]` guards string operations that cannot fail on these values). -/
def safe_eval_list (ev : String → EvalOut) : Cell → List String
  | Cell.pylist l => l
  | Cell.na => []
  | Cell.text s =>
    match ev s with
    | EvalOut.evList v => v
    | EvalOut.evNonList => commaSplit s
    | EvalOut.evRaise => commaSplit (pyStripBrackets s)
  | Cell.nonStr s => commaSplit (pyStripBrackets s)

/-- Escape a character list for a Python string literal quoted with `q`:
backslashes and the quote character get a preceding backslash. -/
def escapeQ (q : Char) : List Char → List Char
  | [] => []
  | c :: rest =>
    if c = '\\' ∨ c = q then '\\' :: c :: escapeQ q rest
    else c :: escapeQ q rest

/-- Quote character `repr` picks for a Python string: single quotes, unless
the string contains a single quote and no double quote. -/
def quoteFor (s : List Char) : Char :=
  if s.contains squote && !s.contains dquote then dquote else squote

/-- Python `repr` of a string (printable characters): the chosen quote, the
escaped content, the closing quote. -/
def reprStr (s : String) : List Char :=
  let q := quoteFor s.data
  q :: (escapeQ q s.data ++ [q])

/-- The items-and-closing-bracket part of the `repr` of a Python list:
items separated by `", "`, then `]`. -/
def joinItems : List String → List Char
  | [] => [']']
  | [s] => reprStr s ++ [']']
  | s :: rest => reprStr s ++ ',' :: ' ' :: joinItems rest

/-- The textual form a list of strings takes in the CSV file: pandas
`to_csv` writes `str(list)`, the Python `repr` of the list. The CSV quoting
layer is lossless and is modelled as the identity. -/
def serializeList (l : List String) : String := ⟨'[' :: joinItems l⟩

/-- Resolve a backslash escape inside a Python string literal. -/
def unesc (c : Char) : Char :=
  if c = 'n' then '\n' else if c = 't' then '\t' else c

/-- Parse the body of a Python string literal quoted with `q` (the opening
quote already consumed): returns the content and the remainder after the
closing quote. -/
def parseQuotedAux (q : Char) : List Char → Option (List Char × List Char)
  | [] => none
  | c :: rest =>
    if c = q then some ([], rest)
    else if c = '\\' then
      match rest with
      | [] => none
      | d :: rest2 =>
        match parseQuotedAux q rest2 with
        | none => none
        | some (content, rem) => some (unesc d :: content, rem)
    else
      match parseQuotedAux q rest with
      | none => none
      | some (content, rem) => some (c :: content, rem)

/-- Drop leading spaces. -/
def skipSpaces : List Char → List Char
  | [] => []
  | c :: rest => if c = ' ' then skipSpaces rest else c :: rest

/-- Fuel-bounded parser for the items of a Python list literal of string
literals, the opening `[` already consumed: returns the items and the
remainder after the closing `]`. -/
def parseItemsF : Nat → List Char → Option (List String × List Char)
  | 0, _ => none
  | fuel+1, input =>
    match skipSpaces input with
    | [] => none
    | c :: rest =>
      if c = ']' then some ([], rest)
      else if c = squote ∨ c = dquote then
        match parseQuotedAux c rest with
        | none => none
        | some (content, rest2) =>
          match skipSpaces rest2 with
          | [] => none
          | d :: rest3 =>
            if d = ']' then some ([(⟨content⟩ : String)], rest3)
            else if d = ',' then
              match parseItemsF fuel rest3 with
              | none => none
              | some (items, rest4) => some ((⟨content⟩ : String) :: items, rest4)
            else none
      else none

/-- Parse a complete Python list literal of string literals. Models the part
of `eval` that recognises the serialized form of a skills list. -/
def parseListLit (s : List Char) : Option (List String) :=
  match s with
  | [] => none
  | c :: rest =>
    if c = '[' then
      match parseItemsF (rest.length + 1) rest with
      | none => none
      | some (items, rest2) => if skipSpaces rest2 = [] then some items else none
    else none

/-- Consume a maximal run of decimal digits. -/
def takeDigits : List Char → List Char × List Char
  | [] => ([], [])
  | c :: rest =>
    if c.isDigit then
      match takeDigits rest with
      | (ds, rem) => (c :: ds, rem)
    else ([], c :: rest)

/-- Numeric value of a digit run. -/
def digitsToNat (ds : List Char) : Nat :=
  ds.foldl (fun acc c => acc * 10 + (c.toNat - 48)) 0

/-- Recognise the expression form `listliteral[natliteral]`, as in
`"['a'][0]"`; `some b` records whether the index is in range (in range the
expression evaluates to an element — a string, not a list — and out of range
it raises IndexError). -/
def parseSubscriptIdx (s : List Char) : Option Bool :=
  match s with
  | [] => none
  | c :: rest =>
    if c = '[' then
      match parseItemsF (rest.length + 1) rest with
      | none => none
      | some (items, rest2) =>
        match rest2 with
        | [] => none
        | d :: rest3 =>
          if d = '[' then
            match takeDigits rest3 with
            | ([], _) => none
            | (ds, rem) =>
              if rem = [']'] then some (decide (digitsToNat ds < items.length))
              else none
          else none
    else none

/-- Whether every character is a decimal digit (and there is at least one):
a Python integer literal. -/
def isIntLit (s : List Char) : Bool := !s.isEmpty && s.all Char.isDigit

/-- Executable model of Python `eval` on the cell texts the claims exercise:
a list literal of string literals evaluates to that list; an integer literal
or an in-range subscript of a list literal evaluates successfully to a
non-list value; anything else raises (as `eval` does for bare identifiers
such as `Python, SQL`, for malformed literals, and for out-of-range
subscripts). -/
def pyEvalModel (s : String) : EvalOut :=
  match parseListLit s.data with
  | some l => EvalOut.evList l
  | none =>
    if isIntLit s.data then EvalOut.evNonList
    else
      match parseSubscriptIdx s.data with
      | some true => EvalOut.evNonList
      | _ => EvalOut.evRaise

/-- Modelled from the spec: the tolerant parse policy as the spec words it —
"if already a structured list, return as-is; if the textual form parses as a
list literal, use it; otherwise fall back to comma-splitting the trimmed,
bracket-stripped string; on total failure, treat as an empty list". -/
def specTolerantParse : Cell → List String
  | Cell.pylist l => l
  | Cell.na => []
  | Cell.text s =>
    match parseListLit s.data with
    | some v => v
    | none => commaSplit (pyStripBrackets (pyTrim s))
  | Cell.nonStr s =>
    match parseListLit s.data with
    | some v => v
    | none => commaSplit (pyStripBrackets (pyTrim s))

/-- The tab-2 filter (main_pro.py lines 346–349): an empty selection leaves
the dataframe untouched; otherwise keep the rows whose parsed skills cell
contains every selected skill — `all(skill in safe_eval_list(skill_set) for
skill in selected_skills)`. The row type is a parameter, with `skillsOf`
projecting the `skills` column. -/
def filteredRows {γ : Type} (ev : String → EvalOut) (rows : List γ)
    (skillsOf : γ → Cell) (sel : List String) : List γ :=
  if sel.isEmpty then rows
  else rows.filter (fun r => sel.all (fun sk => (safe_eval_list ev (skillsOf r)).contains sk))

/-- One entry of the extracted `technical_skills` value: the three raw skill
sub-lists. The code reads each with `.get(...) or []`, so an absent or
`None` sub-list is modelled as `[]`. -/
structure TechEntry where
  programming_languages : List String
  libraries_or_frameworks : List String
  other_tools : List String
deriving DecidableEq

/-- The extracted profile dictionary (`data = response.model_dump()` plus the
derived `skills` entry), restricted to the columns of `default_columns`
(main_pro.py lines 273–291) — which is all of it. `technical_skills = none`
models a missing or non-list value (the code guards with
`isinstance(tech, list)`). Scalar fields are `Option String`; `none` models
`None`, which pandas writes as an empty field and reads back as NaN. -/
structure RowData where
  fullname : Option String
  email_id : Option String
  phone_number : Option String
  current_location : Option String
  designation : Option String
  technical_skills : Option (List TechEntry)
  interpersonal_skills : List String
  year_of_experience : Option String
  current_ctc : Option String
  current_company : Option String
  expected_ctc : Option String
  linkedin_url : Option String
  github_url : Option String
  portfolio_project_url : Option String
  summary : Option String
  certifications : List String
  skills : List String
deriving DecidableEq

/-- `tech0` (main_pro.py line 174): the first element of `technical_skills`
when that value is a list with at least one element, else the empty dict
(every sub-list read from it is then `[]`). -/
def tech0 (tech : Option (List TechEntry)) : TechEntry :=
  match tech with
  | some (t :: _) => t
  | _ => ⟨[], [], []⟩

/-- `all_skills` (main_pro.py line 261): the deduplicated union
`list({*prog_langs, *frameworks, *tools})` of the three sub-lists extracted
from `tech0`. Python's set iteration order is unspecified; the model keeps
first occurrences. -/
def all_skills (tech : Option (List TechEntry)) : List String :=
  ((tech0 tech).programming_languages ++ (tech0 tech).libraries_or_frameworks ++
    (tech0 tech).other_tools).dedup

/-- `data["skills"] = all_skills` (main_pro.py line 262). -/
def setSkills (d : RowData) : RowData :=
  { d with skills := all_skills d.technical_skills }

/-- Modelled from the spec: "`skills` is always exactly the deduplicated
union of programming_languages, libraries_or_frameworks, other_tools" read
over the whole `technical_skills` value, not just its first entry. -/
def specSkillsUnion (tech : Option (List TechEntry)) : List String :=
  ((tech.getD []).foldr
    (fun e acc =>
      e.programming_languages ++ e.libraries_or_frameworks ++ e.other_tools ++ acc)
    []).dedup

/-- The CSV-backed store: `none` models an absent `resume_output.csv`, and a
table is the list of its data rows (the header is implicit). Rows are kept
at the value level of the `row` dict of main_pro.py lines 305–310; the
to_csv/read_csv round trip of each cell is handled separately
(`serializeList`, `safe_eval_list`). -/
structure Store where
  file : Option (List RowData)
deriving DecidableEq

/-- The table the code reads with `pd.read_csv`: empty for a header-only
file. -/
def tableOf (st : Store) : List RowData := st.file.getD []

/-- Lines 293–295: create the CSV with only the header when it is absent. -/
def ensureInitialized (st : Store) : Store :=
  match st.file with
  | none => ⟨some []⟩
  | some _ => st

/-- The pandas elementwise comparison `df["email_id"] == email`: true only
when both sides are actual strings and equal — a NaN cell never equals
anything, and comparing a column against `None` is false everywhere. -/
def emailMatches (rowEmail profEmail : Option String) : Bool :=
  match rowEmail, profEmail with
  | some a, some b => a == b
  | _, _ => false

/-- `df[df["email_id"] == email].empty`-style lookup, as a first match. -/
def findByEmail (tbl : List RowData) (email : Option String) : Option RowData :=
  tbl.find? (fun r => emailMatches r.email_id email)

/-- Result of the Save-to-Database handler. -/
inductive SaveOutcome
  | inserted
  | awaitingConfirmation
deriving DecidableEq

/-- The Save-to-Database handler (main_pro.py lines 293–314): ensure the CSV
exists, read it, select the rows whose `email_id` equals the profile's; when
none match, append the profile as one row (`to_csv(mode="a")`) and report
success, otherwise open the overwrite dialog and write nothing. -/
def save (st : Store) (d : RowData) : Store × SaveOutcome :=
  let st2 := ensureInitialized st
  let tbl := tableOf st2
  let existing := tbl.filter (fun r => emailMatches r.email_id d.email_id)
  if existing.isEmpty then (⟨some (tbl ++ [d])⟩, SaveOutcome.inserted)
  else (st2, SaveOutcome.awaitingConfirmation)

/-- The two buttons of the duplicate dialog. -/
inductive DialogChoice
  | overwriteExisting
  | cancel
deriving DecidableEq

/-- `show_overwrite_dialog` (main_pro.py lines 66–85): Overwrite re-reads
the CSV, drops the rows whose `email_id` equals the duplicate email
(`df[df["email_id"] != email]` keeps NaN rows, and keeps everything when the
email is `None`), appends the new row and rewrites the file; Cancel only
shows a warning and reruns. -/
def show_overwrite_dialog (choice : DialogChoice) (email : Option String)
    (d : RowData) (st : Store) : Store :=
  match choice with
  | DialogChoice.overwriteExisting =>
      ⟨some ((tableOf st).filter (fun r => !emailMatches r.email_id email) ++ [d])⟩
  | DialogChoice.cancel => st

/-- Index of the last occurrence of a character, as `str.rfind`. -/
def rfindIdx (c : Char) : List Char → Option Nat
  | [] => none
  | a :: rest =>
    match rfindIdx c rest with
    | some i => some (i + 1)
    | none => if a = c then some 0 else none

/-- The component after the last slash, as `Path(p).name` for normal paths. -/
def lastComponent (s : List Char) : List Char :=
  (splitOnChar '/' s).getLastD []

/-- `Path(name).suffix` on the final component: the substring from the last
dot, unless that dot is the first or last character of the name. -/
def pySuffixChars (name : List Char) : List Char :=
  match rfindIdx '.' name with
  | some i => if 0 < i ∧ i < name.length - 1 then name.drop i else []
  | none => []

/-- ASCII lowering of one character, as `.lower()` acts on extensions. -/
def pyLowerChar (c : Char) : Char :=
  if 'A' ≤ c ∧ c ≤ 'Z' then Char.ofNat (c.toNat + 32) else c

/-- `Path(file_path).suffix.lower()` (main_pro.py line 90). -/
def extOf (path : String) : String :=
  ⟨(pySuffixChars (lastComponent path.data)).map pyLowerChar⟩

/-- Errors of the text-extraction step: the explicit `ValueError` for an
unsupported extension, and any exception out of the document loader. -/
inductive ExtractErr
  | unsupportedFormat
  | extractionError
deriving DecidableEq

/-- Characters of a blank-line-separated join of page texts. -/
def joinPagesChars : List String → List Char
  | [] => []
  | [d] => d.data
  | d :: rest => d.data ++ '\n' :: '\n' :: joinPagesChars rest

/-- Join of the loaded page texts (main_pro.py line 100):
`"\n\n".join([d.page_content for d in docs if page_content truthy])`. A doc
without usable `page_content` is modelled as `""`. -/
def joinPages (docs : List String) : String :=
  ⟨joinPagesChars (docs.filter (fun d => !d.data.isEmpty))⟩

/-- `load_resume_text` (main_pro.py lines 89–100), with the two
langchain loaders as black-box parameters returning page texts or failing:
dispatch on the lowercased suffix, raising `ValueError` (UnsupportedFormat)
for anything but `.pdf` and `.docx`. -/
def load_resume_text (pdfLoader docxLoader : String → Except Unit (List String))
    (path : String) : Except ExtractErr String :=
  let ext := extOf path
  if ext = ".pdf" then
    match pdfLoader path with
    | Except.ok docs => Except.ok (joinPages docs)
    | Except.error _ => Except.error ExtractErr.extractionError
  else if ext = ".docx" then
    match docxLoader path with
    | Except.ok docs => Except.ok (joinPages docs)
    | Except.error _ => Except.error ExtractErr.extractionError
  else Except.error ExtractErr.unsupportedFormat

/-! ### Fixtures used by witnesses and counterexamples -/

/-- A profile with every field absent or empty. -/
def blankRow : RowData :=
  ⟨none, none, none, none, none, none, [], none, none, none, none, none, none, none, none, [], []⟩

/-- A sample email. -/
def emailA : String := "a@x.com"

/-- A profile carrying `emailA`. -/
def rowA : RowData := { blankRow with email_id := some emailA }

/-! ### Store lemmas -/

theorem emailMatches_none_right (x : Option String) : emailMatches x none = false := by
  cases x <;> rfl

theorem find?_eq_none_iff_filter_eq_nil {α : Type} (p : α → Bool) (l : List α) :
    l.find? p = none ↔ l.filter p = [] := by
  induction l with
  | nil => simp
  | cons a t ih =>
    by_cases h : p a
    · simp [List.find?_cons_of_pos _ h, List.filter_cons_of_pos h, h]
    · simp [List.find?_cons_of_neg _ h, List.filter_cons_of_neg h, ih]

theorem ensureInitialized_file_isSome (st : Store) :
    (ensureInitialized st).file.isSome := by
  cases st with
  | mk file => cases file <;> simp [ensureInitialized]

theorem tableOf_ensureInitialized (st : Store) :
    tableOf (ensureInitialized st) = tableOf st := by
  cases st with
  | mk file => cases file <;> simp [ensureInitialized, tableOf]

theorem save_insert_of_find?_none (st : Store) (d : RowData)
    (h : findByEmail (tableOf (ensureInitialized st)) d.email_id = none) :
    save st d = (⟨some (tableOf (ensureInitialized st) ++ [d])⟩, SaveOutcome.inserted) := by
  have hf : (tableOf (ensureInitialized st)).filter
      (fun r => emailMatches r.email_id d.email_id) = [] :=
    (find?_eq_none_iff_filter_eq_nil _ _).mp h
  simp [save, hf]

theorem save_await_of_find?_some (st : Store) (d : RowData)
    (h : (findByEmail (tableOf (ensureInitialized st)) d.email_id).isSome) :
    save st d = (ensureInitialized st, SaveOutcome.awaitingConfirmation) := by
  obtain ⟨x, hx⟩ := Option.isSome_iff_exists.mp h
  rw [findByEmail] at hx
  have hmem : x ∈ tableOf (ensureInitialized st) := List.mem_of_find?_eq_some hx
  have hpx := List.find?_some hx
  simp [save]
  exact ⟨x, hmem, hpx⟩

/-- C1: for every profile, `save` first ensures the backing CSV exists
(creating a header-only file when absent), then checks for a row with the
profile's email: when none exists it appends exactly one new row and reports
Inserted, and when one exists it reports AwaitingConfirmation — handing the
overwrite/cancel choice to the dialog — and writes nothing. -/
theorem save_checks_then_inserts_or_awaits (st : Store) (d : RowData) :
    (st.file = none → ensureInitialized st = ⟨some []⟩) ∧
    ((save st d).1.file.isSome) ∧
    (findByEmail (tableOf (ensureInitialized st)) d.email_id = none →
      save st d = (⟨some (tableOf (ensureInitialized st) ++ [d])⟩, SaveOutcome.inserted)) ∧
    ((findByEmail (tableOf (ensureInitialized st)) d.email_id).isSome →
      save st d = (ensureInitialized st, SaveOutcome.awaitingConfirmation)) := by
  refine ⟨?_, ?_, save_insert_of_find?_none st d, save_await_of_find?_some st d⟩
  · intro h
    simp [ensureInitialized, h]
  · by_cases h : (findByEmail (tableOf (ensureInitialized st)) d.email_id) = none
    · rw [save_insert_of_find?_none st d h]
      rfl
    · rw [save_await_of_find?_some st d (Option.ne_none_iff_isSome.mp h)]
      exact ensureInitialized_file_isSome st

/-- Witness for C1 at a concrete store and profile: an absent file is
created, a fresh email is appended, a duplicate email only awaits. -/
theorem save_checks_then_inserts_or_awaits_witness :
    save ⟨none⟩ rowA = (⟨some (tableOf (ensureInitialized ⟨none⟩) ++ [rowA])⟩,
      SaveOutcome.inserted) ∧
    save ⟨some [rowA]⟩ rowA = (ensureInitialized ⟨some [rowA]⟩,
      SaveOutcome.awaitingConfirmation) :=
  ⟨(save_checks_then_inserts_or_awaits ⟨none⟩ rowA).2.2.1 (by decide),
   (save_checks_then_inserts_or_awaits ⟨some [rowA]⟩ rowA).2.2.2 (by decide)⟩

/-- C4: saving twice with the same never-before-seen email and identical
data leaves exactly one matching stored row — the first call inserts, the
second finds the row, reports AwaitingConfirmation and writes nothing. -/
theorem save_twice_keeps_single_row (st : Store) (d : RowData) (e : String)
    (he : d.email_id = some e)
    (hnew : findByEmail (tableOf (ensureInitialized st)) d.email_id = none) :
    (save st d).2 = SaveOutcome.inserted ∧
    (save (save st d).1 d).2 = SaveOutcome.awaitingConfirmation ∧
    (save (save st d).1 d).1 = (save st d).1 ∧
    ((tableOf (save (save st d).1 d).1).filter
      (fun r => emailMatches r.email_id d.email_id)).length = 1 := by
  have h1 := save_insert_of_find?_none st d hnew
  have hmatch : emailMatches d.email_id d.email_id = true := by
    rw [he]; simp [emailMatches]
  have hfilter : (tableOf (ensureInitialized st)).filter
      (fun r => emailMatches r.email_id d.email_id) = [] :=
    (find?_eq_none_iff_filter_eq_nil _ _).mp hnew
  have htbl : tableOf (save st d).1 = tableOf (ensureInitialized st) ++ [d] := by
    rw [h1]; rfl
  have hfilter2 : (tableOf (save st d).1).filter
      (fun r => emailMatches r.email_id d.email_id) = [d] := by
    rw [htbl, List.filter_append, hfilter, List.nil_append]
    simp [hmatch]
  have hensure2 : ensureInitialized (save st d).1 = (save st d).1 := by
    rw [h1]; rfl
  have h2 : save (save st d).1 d = ((save st d).1, SaveOutcome.awaitingConfirmation) := by
    rw [save, hensure2, hfilter2]
    simp
  refine ⟨by rw [h1], by rw [h2], by rw [h2], ?_⟩
  rw [h2]
  simp [hfilter2]

/-- Witness for C4: starting from an absent file and the concrete profile
`rowA`, two saves leave one row for its email. -/
theorem save_twice_keeps_single_row_witness :
    (save ⟨none⟩ rowA).2 = SaveOutcome.inserted ∧
    (save (save ⟨none⟩ rowA).1 rowA).2 = SaveOutcome.awaitingConfirmation ∧
    (save (save ⟨none⟩ rowA).1 rowA).1 = (save ⟨none⟩ rowA).1 ∧
    ((tableOf (save (save ⟨none⟩ rowA).1 rowA).1).filter
      (fun r => emailMatches r.email_id rowA.email_id)).length = 1 :=
  save_twice_keeps_single_row ⟨none⟩ rowA emailA (by decide) (by decide)

/-- C8: choosing Cancel in the duplicate dialog mutates nothing — the store,
hence every previously written row, is unchanged. -/
theorem cancel_leaves_store_unchanged (email : Option String) (d : RowData) (st : Store) :
    show_overwrite_dialog DialogChoice.cancel email d st = st := rfl

theorem filter_emailMatches_none (tbl : List RowData) :
    tbl.filter (fun r => emailMatches r.email_id none) = [] := by
  induction tbl with
  | nil => rfl
  | cons a t ih => simp [List.filter_cons, emailMatches_none_right, ih]

/-- C10: a profile whose email is missing never triggers the duplicate
dialog: `save` always appends it and reports Inserted, even when rows
without an email are already stored, so repeated saves accumulate rows and
the one-row-per-email invariant is not enforced for absent emails. -/
theorem save_inserts_without_email (st : Store) (d : RowData)
    (h : d.email_id = none) :
    (save st d).2 = SaveOutcome.inserted ∧
    (save st d).1 = ⟨some (tableOf (ensureInitialized st) ++ [d])⟩ ∧
    (save (save st d).1 d).2 = SaveOutcome.inserted ∧
    (save (save st d).1 d).1 = ⟨some (tableOf (ensureInitialized st) ++ [d, d])⟩ := by
  have hnone : ∀ tbl : List RowData,
      tbl.filter (fun r => emailMatches r.email_id d.email_id) = [] := by
    intro tbl
    rw [h]
    exact filter_emailMatches_none tbl
  have h1 : save st d = (⟨some (tableOf (ensureInitialized st) ++ [d])⟩,
      SaveOutcome.inserted) :=
    save_insert_of_find?_none st d ((find?_eq_none_iff_filter_eq_nil _ _).mpr (hnone _))
  have h2 : save (save st d).1 d = (⟨some (tableOf (ensureInitialized st) ++ [d, d])⟩,
      SaveOutcome.inserted) := by
    have := save_insert_of_find?_none (save st d).1 d
      ((find?_eq_none_iff_filter_eq_nil _ _).mpr (hnone _))
    rw [this, h1]
    simp [ensureInitialized, tableOf]
  exact ⟨by rw [h1], by rw [h1], by rw [h2], by rw [h2]⟩

/-- Witness for C10: saving the email-less `blankRow` into a store that
already holds an email-less row inserts twice and accumulates rows. -/
theorem save_inserts_without_email_witness :
    (save ⟨some [blankRow]⟩ blankRow).2 = SaveOutcome.inserted ∧
    (save ⟨some [blankRow]⟩ blankRow).1 =
      ⟨some (tableOf (ensureInitialized ⟨some [blankRow]⟩) ++ [blankRow])⟩ ∧
    (save (save ⟨some [blankRow]⟩ blankRow).1 blankRow).2 = SaveOutcome.inserted ∧
    (save (save ⟨some [blankRow]⟩ blankRow).1 blankRow).1 =
      ⟨some (tableOf (ensureInitialized ⟨some [blankRow]⟩) ++ [blankRow, blankRow])⟩ :=
  save_inserts_without_email ⟨some [blankRow]⟩ blankRow rfl

/-! ### Skills derivation (C2, C9) -/

/-- A technical-skills entry with only a programming language. -/
def goEntry : TechEntry := ⟨["Go"], [], []⟩

/-- A technical-skills entry with empty sub-lists. -/
def emptyEntry : TechEntry := ⟨[], [], []⟩

/-- A profile whose `technical_skills` has two entries; only the first
(empty) one feeds the derived skills. -/
def multiTechProfile : RowData :=
  { blankRow with technical_skills := some [emptyEntry, goEntry] }

/-- C2 counterexample: for a profile with more than one `technical_skills`
entry the stored `skills` is not the union over the profile's technical
skills — the entry holding Go is ignored. -/
theorem skills_union_counterexample :
    (setSkills multiTechProfile).skills.toFinset ≠
      (specSkillsUnion multiTechProfile.technical_skills).toFinset := by
  decide

/-- C2 (amended): the stored `skills` equals the deduplicated union of the
three sub-lists of the first entry of `technical_skills` (empty when that
value is missing, not a list, or an empty list), and it is computed from
`technical_skills` alone — never from `interpersonal_skills` or
`certifications`. -/
theorem skills_union_amended (d d2 : RowData)
    (h : d.technical_skills = d2.technical_skills) :
    (setSkills d).skills.toFinset =
      (tech0 d.technical_skills).programming_languages.toFinset ∪
        (tech0 d.technical_skills).libraries_or_frameworks.toFinset ∪
        (tech0 d.technical_skills).other_tools.toFinset ∧
    (setSkills d).skills = (setSkills d2).skills := by
  constructor
  · ext a
    simp [setSkills, all_skills]
  · simp [setSkills, all_skills, h]

/-- A profile with one fully populated technical-skills entry. -/
def techProfileA : RowData :=
  { blankRow with technical_skills := some [⟨["Python"], ["Pandas"], ["Git"]⟩] }

/-- The same profile with interpersonal skills and certifications added. -/
def techProfileB : RowData :=
  { techProfileA with
    interpersonal_skills := ["Leadership"], certifications := ["AWS"] }

/-- Witness for C2 (amended) at concrete profiles differing only in
interpersonal skills and certifications. -/
theorem skills_union_amended_witness :
    (setSkills techProfileA).skills.toFinset =
      (tech0 techProfileA.technical_skills).programming_languages.toFinset ∪
        (tech0 techProfileA.technical_skills).libraries_or_frameworks.toFinset ∪
        (tech0 techProfileA.technical_skills).other_tools.toFinset ∧
    (setSkills techProfileA).skills = (setSkills techProfileB).skills :=
  skills_union_amended techProfileA techProfileB rfl

/-- C9: the saved skills union is computed only from the first element of
the `technical_skills` list — later entries are ignored — and a missing,
non-list, or empty `technical_skills` derives an empty skills set. -/
theorem skills_from_first_entry_only (d : RowData) (e : TechEntry)
    (rest rest2 : List TechEntry) :
    all_skills (some (e :: rest)) = all_skills (some (e :: rest2)) ∧
    (setSkills d).skills = all_skills d.technical_skills ∧
    (d.technical_skills = none → (setSkills d).skills = []) ∧
    (d.technical_skills = some [] → (setSkills d).skills = []) := by
  refine ⟨rfl, rfl, ?_, ?_⟩ <;> intro h <;> simp [setSkills, all_skills, tech0, h]

/-- Witness for C9: dropping the second entry leaves the derived skills
unchanged, and `blankRow` (no technical skills) derives none. -/
theorem skills_from_first_entry_only_witness :
    all_skills (some [goEntry, emptyEntry]) = all_skills (some [goEntry]) ∧
    (setSkills blankRow).skills = [] :=
  ⟨(skills_from_first_entry_only blankRow goEntry [emptyEntry] []).1,
   (skills_from_first_entry_only blankRow goEntry [emptyEntry] []).2.2.1 rfl⟩

/-! ### Filter (C6) -/

/-- C6: with an empty selection the filter returns the rows unchanged;
otherwise a row is kept exactly when its parsed skills cell contains every
selected skill (AND across the selection, not OR). -/
theorem filter_empty_id_and_superset {γ : Type} (ev : String → EvalOut)
    (rows : List γ) (skillsOf : γ → Cell) (sel : List String) :
    filteredRows ev rows skillsOf [] = rows ∧
    (∀ r, r ∈ filteredRows ev rows skillsOf sel ↔
      r ∈ rows ∧ ∀ sk ∈ sel, sk ∈ safe_eval_list ev (skillsOf r)) := by
  constructor
  · simp [filteredRows]
  · intro r
    match sel with
    | [] => simp [filteredRows]
    | s0 :: sel2 =>
      simp [filteredRows, List.mem_filter, List.all_eq_true, List.contains, List.elem_eq_mem]

/-- A serialized skills cell holding Python and SQL. -/
def cellA : Cell := Cell.text (serializeList ["Python", "SQL"])

/-- A serialized skills cell holding Go. -/
def cellB : Cell := Cell.text (serializeList ["Go"])

/-- Witness for C6 at a concrete two-row table: the empty selection is the
identity, and membership under the selection of Python follows the superset
characterization. -/
theorem filter_empty_id_and_superset_witness :
    filteredRows pyEvalModel [cellA, cellB] id [] = [cellA, cellB] ∧
    (cellA ∈ filteredRows pyEvalModel [cellA, cellB] id ["Python"] ↔
      cellA ∈ [cellA, cellB] ∧
        ∀ sk ∈ ["Python"], sk ∈ safe_eval_list pyEvalModel (id cellA)) :=
  ⟨(filter_empty_id_and_superset pyEvalModel [cellA, cellB] id ["Python"]).1,
   (filter_empty_id_and_superset pyEvalModel [cellA, cellB] id ["Python"]).2 cellA⟩

/-! ### Text extraction dispatch (C7) -/

/-- C7: an input whose lowercased suffix is neither `.pdf` nor `.docx`
fails with the unsupported-format error before any loader runs; `.pdf` and
`.docx` dispatch to their format-specific loader, whose pages are joined. -/
theorem extension_dispatch (pdfLoader docxLoader : String → Except Unit (List String))
    (path : String) :
    (extOf path ≠ ".pdf" → extOf path ≠ ".docx" →
      load_resume_text pdfLoader docxLoader path =
        Except.error ExtractErr.unsupportedFormat) ∧
    (extOf path = ".pdf" →
      load_resume_text pdfLoader docxLoader path =
        match pdfLoader path with
        | Except.ok docs => Except.ok (joinPages docs)
        | Except.error _ => Except.error ExtractErr.extractionError) ∧
    (extOf path = ".docx" →
      load_resume_text pdfLoader docxLoader path =
        match docxLoader path with
        | Except.ok docs => Except.ok (joinPages docs)
        | Except.error _ => Except.error ExtractErr.extractionError) := by
  refine ⟨fun h1 h2 => ?_, fun h => ?_, fun h => ?_⟩
  · simp [load_resume_text, h1, h2]
  · simp [load_resume_text, h]
  · have h1 : extOf path ≠ ".pdf" := by
      rw [h]; decide
    simp [load_resume_text, h1, h]

/-- A stub document loader returning fixed pages, one of them blank. -/
def stubLoader : String → Except Unit (List String) :=
  fun _ => Except.ok ["page one", "", "page two"]

/-- A plain-text path. -/
def txtPath : String := "resume.txt"

/-- An uppercase PDF path. -/
def pdfPath : String := "cv.PDF"

/-- Witness for C7: a `.txt` upload is rejected as unsupported, an
uppercase `.PDF` one reaches the PDF loader. -/
theorem extension_dispatch_witness :
    load_resume_text stubLoader stubLoader txtPath =
      Except.error ExtractErr.unsupportedFormat ∧
    load_resume_text stubLoader stubLoader pdfPath =
      match stubLoader pdfPath with
      | Except.ok docs => Except.ok (joinPages docs)
      | Except.error _ => Except.error ExtractErr.extractionError :=
  ⟨(extension_dispatch stubLoader stubLoader txtPath).1 (by decide) (by decide),
   (extension_dispatch stubLoader stubLoader pdfPath).2.1 (by decide)⟩

/-! ### Serialization round trip (C5) -/

theorem skipSpaces_cons_of_ne {c : Char} (l : List Char) (h : c ≠ ' ') :
    skipSpaces (c :: l) = c :: l := by
  simp [skipSpaces, h]

theorem parseItemsF_succ_space (f : Nat) (x : List Char) :
    parseItemsF (f + 1) (' ' :: x) = parseItemsF (f + 1) x := by
  have h : skipSpaces (' ' :: x) = skipSpaces x := by simp [skipSpaces]
  simp only [parseItemsF, h]

theorem quoteFor_eq_or (s : List Char) : quoteFor s = squote ∨ quoteFor s = dquote := by
  unfold quoteFor
  split
  · exact Or.inr rfl
  · exact Or.inl rfl

theorem parseQuotedAux_escape (q : Char) (hb : q ≠ '\\') (hn : q ≠ 'n') (ht : q ≠ 't') :
    ∀ (s rest : List Char), parseQuotedAux q (escapeQ q s ++ q :: rest) = some (s, rest) := by
  intro s
  induction s with
  | nil =>
    intro rest
    simp only [escapeQ, List.nil_append]
    rw [parseQuotedAux.eq_def]
    simp
  | cons c cs ih =>
    intro rest
    by_cases h : c = '\\' ∨ c = q
    · have h1 : ¬ (('\\' : Char) = q) := fun hh => hb hh.symm
      have h2 : unesc c = c := by
        rcases h with h | h
        · subst h; decide
        · subst h; simp [unesc, hn, ht]
      have hesc : escapeQ q (c :: cs) = '\\' :: c :: escapeQ q cs := by
        simp [escapeQ, h]
      rw [hesc, List.cons_append, List.cons_append, parseQuotedAux.eq_def]
      simp [h1, ih, h2]
    · push_neg at h
      have hesc : escapeQ q (c :: cs) = c :: escapeQ q cs := by
        simp [escapeQ, h.1, h.2]
      rw [hesc, List.cons_append, parseQuotedAux.eq_def]
      simp [h.1, h.2, ih]

theorem parseItemsF_joinItems :
    ∀ (l : List String) (fuel : Nat), l.length < fuel →
      parseItemsF fuel (joinItems l) = some (l, []) := by
  intro l
  induction l with
  | nil =>
    intro fuel hf
    obtain ⟨f, rfl⟩ : ∃ f, fuel = f + 1 := ⟨fuel - 1, by omega⟩
    simp [joinItems, parseItemsF, skipSpaces]
  | cons s t ih =>
    intro fuel hf
    obtain ⟨f, rfl⟩ : ∃ f, fuel = f + 1 := ⟨fuel - 1, by omega⟩
    have hql := quoteFor_eq_or s.data
    have hq_space : quoteFor s.data ≠ ' ' := by
      rcases hql with h | h <;> rw [h] <;> decide
    have hq_rb : quoteFor s.data ≠ ']' := by
      rcases hql with h | h <;> rw [h] <;> decide
    have hq_bs : quoteFor s.data ≠ '\\' := by
      rcases hql with h | h <;> rw [h] <;> decide
    have hq_n : quoteFor s.data ≠ 'n' := by
      rcases hql with h | h <;> rw [h] <;> decide
    have hq_t : quoteFor s.data ≠ 't' := by
      rcases hql with h | h <;> rw [h] <;> decide
    have hq_test : (quoteFor s.data = squote ∨ quoteFor s.data = dquote) = True :=
      eq_true hql
    cases t with
    | nil =>
      have hshape : joinItems [s] =
          quoteFor s.data :: (escapeQ (quoteFor s.data) s.data ++ quoteFor s.data :: [']']) := by
        simp [joinItems, reprStr]
      have hparse := parseQuotedAux_escape (quoteFor s.data) hq_bs hq_n hq_t s.data [']']
      rw [hshape, parseItemsF, skipSpaces_cons_of_ne _ hq_space]
      simp [hq_rb, hq_test, hparse, skipSpaces]
    | cons r t2 =>
      have hshape : joinItems (s :: r :: t2) =
          quoteFor s.data ::
            (escapeQ (quoteFor s.data) s.data ++
              quoteFor s.data :: (',' :: ' ' :: joinItems (r :: t2))) := by
        simp [joinItems, reprStr]
      have hparse := parseQuotedAux_escape (quoteFor s.data) hq_bs hq_n hq_t s.data
        (',' :: ' ' :: joinItems (r :: t2))
      obtain ⟨f2, rfl⟩ : ∃ f2, f = f2 + 1 := ⟨f - 1, by simp at hf; omega⟩
      have hrec : parseItemsF (f2 + 1) (' ' :: joinItems (r :: t2)) = some (r :: t2, []) := by
        rw [parseItemsF_succ_space]
        exact ih (f2 + 1) (by simp at hf ⊢; omega)
      rw [hshape, parseItemsF, skipSpaces_cons_of_ne _ hq_space]
      simp [hq_rb, hq_test, hparse, skipSpaces, hrec]

theorem length_le_joinItems : ∀ l : List String, l.length ≤ (joinItems l).length := by
  intro l
  induction l with
  | nil => simp [joinItems]
  | cons s t ih =>
    cases t with
    | nil => simp [joinItems]
    | cons r t2 =>
      simp only [joinItems, List.length_append, List.length_cons] at ih ⊢
      omega

theorem parseListLit_serializeList (l : List String) :
    parseListLit (serializeList l).data = some l := by
  have hdata : (serializeList l).data = '[' :: joinItems l := rfl
  have h1 := parseItemsF_joinItems l ((joinItems l).length + 1)
    (by have := length_le_joinItems l; omega)
  rw [hdata]
  simp [parseListLit, h1, skipSpaces]

theorem pyEvalModel_serializeList (l : List String) :
    pyEvalModel (serializeList l) = EvalOut.evList l := by
  simp [pyEvalModel, parseListLit_serializeList]

/-- C5: parsing the stored textual form of any skills list with the tolerant
parser yields a list with the same element set as the original
(order-insensitive round trip). -/
theorem serialize_parse_roundtrip (l : List String) :
    (safe_eval_list pyEvalModel (Cell.text (serializeList l))).toFinset = l.toFinset := by
  simp [safe_eval_list, pyEvalModel_serializeList]

/-! ### Tolerant parse branches (C3) -/

/-- The cell text `['a'][0]`, a Python expression that evaluates to the
string `a` — a non-list — so `safe_eval_list` comma-splits the raw string,
while the spec's description comma-splits the bracket-stripped string. -/
def oddCell : String := ⟨['[', squote, 'a', squote, ']', '[', '0', ']']⟩

/-- C3 counterexample: on the cell text `['a'][0]` the code returns the raw
string as a single item, not the bracket-stripped split the claim
describes — the two fallback branches of `safe_eval_list` differ and only
the exception branch strips brackets. -/
theorem tolerant_parse_counterexample :
    safe_eval_list pyEvalModel (Cell.text oddCell) ≠
      specTolerantParse (Cell.text oddCell) := by
  decide

/-- C3 (amended): the tolerant parse returns an existing list as-is and `[]`
for a missing value; a text whose `eval` yields a list gives that list, a
text whose `eval` yields a non-list value is comma-split raw (without
bracket stripping), and a text whose `eval` raises is comma-split after
bracket stripping; the parse is total, and each cell of a table is parsed
independently, so one corrupt cell never aborts the remaining rows. -/
theorem tolerant_parse_branches (ev : String → EvalOut) (l v : List String)
    (s : String) (cells : List Cell) :
    safe_eval_list ev (Cell.pylist l) = l ∧
    safe_eval_list ev Cell.na = [] ∧
    (ev s = EvalOut.evList v → safe_eval_list ev (Cell.text s) = v) ∧
    (ev s = EvalOut.evNonList → safe_eval_list ev (Cell.text s) = commaSplit s) ∧
    (ev s = EvalOut.evRaise →
      safe_eval_list ev (Cell.text s) = commaSplit (pyStripBrackets s)) ∧
    (cells.map (safe_eval_list ev)).length = cells.length ∧
    (∀ i : Nat, (cells.map (safe_eval_list ev)).get? i =
      (cells.get? i).map (safe_eval_list ev)) :=
  ⟨rfl, rfl,
   fun h => by simp [safe_eval_list, h],
   fun h => by simp [safe_eval_list, h],
   fun h => by simp [safe_eval_list, h],
   by simp,
   fun i => by simp⟩

/-- An integer-literal cell text. -/
def num42 : String := "42"

/-- Witness for C3 (amended) at concrete cells: a real list passes through,
and the non-list `eval` result `42` comma-splits the raw text. -/
theorem tolerant_parse_branches_witness :
    safe_eval_list pyEvalModel (Cell.pylist [emailA]) = [emailA] ∧
    safe_eval_list pyEvalModel (Cell.text num42) = commaSplit num42 :=
  ⟨(tolerant_parse_branches pyEvalModel [emailA] [] num42 []).1,
   (tolerant_parse_branches pyEvalModel [emailA] [] num42 []).2.2.2.1 (by decide)⟩

end FocusApp
